import Mathlib

/-!
# Verification of the tarfs archive indexing and lookup engine

A shallow embedding of `src/tar.c`, `src/device.c` and the index-related parts
of `src/driver.c` of the tarfs kernel module, together with proofs settling the
specification claims about it.

Modelling conventions:
* Bytes are `Nat` (values 0..255 in practice); byte buffers are `List Nat`.
* C machine integers are `Nat` with explicit `% 2^32` (`unsigned int`) or
  `% 2^64` (`size_t`) where overflow/underflow matters.
* The backing block device (`struct super_block` + `sb_bread`) is modelled as a
  block-size plus a fetch function returning `Option` (`none` = `sb_bread`
  returned `NULL`).
* Functions that can fail return `Option`/`Except`.
-/

/-- The number `2^32`, the modulus of C `unsigned int` arithmetic. -/
def uintMod : Nat := 2 ^ 32

/-- The number `2^64`, the modulus of C `size_t` arithmetic. -/
def sizeTMod : Nat := 2 ^ 64

/-- C `size_t` subtraction `a - b`: wraps modulo `2^64` when `b > a`. -/
def size_t_sub (a b : Nat) : Nat :=
  (a % sizeTMod + (sizeTMod - b % sizeTMod)) % sizeTMod

/-- Modelled from the spec: the fixed-layout star/tar header (`struct
star_header` comes from `gnutar.h`, which is not under `src/`).  Each field is
the raw fixed-width byte content of the corresponding header field; only the
fields actually read by `src/tar.c` / `src/driver.c` are kept.  The `prefix`
field of the C struct is called `pfx` here. -/
structure star_header where
  name : List Nat      -- char name[100]
  mode : List Nat      -- char mode[8]
  uid : List Nat       -- char uid[8]
  gid : List Nat       -- char gid[8]
  size : List Nat      -- char size[12]
  mtime : List Nat     -- char mtime[12]
  typeflag : Nat       -- char typeflag
  linkname : List Nat  -- char linkname[100]
  magic : List Nat     -- char magic[6]
  pfx : List Nat       -- char prefix[131]
  atime : List Nat     -- char atime[12]
  ctime : List Nat     -- char ctime[12]

/-- Modelled from the spec: the byte layout of the 512-byte star header record
(`gnutar.h` is not under `src/`; offsets are the classic tar layout with the
star `atime`/`ctime` extension, consistent with spec §6). -/
def star_header_of_bytes (b : List Nat) : star_header :=
  { name := b.take 100
  , mode := (b.drop 100).take 8
  , uid := (b.drop 108).take 8
  , gid := (b.drop 116).take 8
  , size := (b.drop 124).take 12
  , mtime := (b.drop 136).take 12
  , typeflag := b.getD 156 0
  , linkname := (b.drop 157).take 100
  , magic := (b.drop 257).take 6
  , pfx := (b.drop 345).take 131
  , atime := (b.drop 476).take 12
  , ctime := (b.drop 488).take 12 }

/-- The first `sizeof(header.magic) = 6` bytes of `OLDGNU_MAGIC` (`"ustar  "`),
the only bytes `memcmp`ed by `tar_read_entry`.  The constant itself lives in
`gnutar.h` (not under `src/`); its value is the standard GNU old-tar magic. -/
def OLDGNU_MAGIC : List Nat := [117, 115, 116, 97, 114, 32]  -- "ustar "

/-! Tar type-flag constants from `gnutar.h` (not under `src/`; standard ustar
values, as described in spec §4.2 step 6) and the Linux `S_IF*` file-type bits
from `<linux/stat.h>`. -/

def REGTYPE : Nat := 48   -- '0'
def AREGTYPE : Nat := 0   -- '\0'
def DIRTYPE : Nat := 53   -- '5'
def SYMTYPE : Nat := 50   -- '2'
def CHRTYPE : Nat := 51   -- '3'
def BLKTYPE : Nat := 52   -- '4'
def FIFOTYPE : Nat := 54  -- '6'

def S_IFREG : Nat := 0o100000
def S_IFDIR : Nat := 0o040000
def S_IFLNK : Nat := 0o120000
def S_IFCHR : Nat := 0o020000
def S_IFBLK : Nat := 0o060000
def S_IFIFO : Nat := 0o010000

/-- `tar_type_to_posix` from `src/tar.c`: maps a tar type flag to a Linux file
type; `REGTYPE` and `AREGTYPE` fall through to the same case. -/
def tar_type_to_posix (typeflag : Nat) : Nat :=
  if typeflag = REGTYPE ∨ typeflag = AREGTYPE then S_IFREG
  else if typeflag = DIRTYPE then S_IFDIR
  else if typeflag = SYMTYPE then S_IFLNK
  else if typeflag = CHRTYPE then S_IFCHR
  else if typeflag = BLKTYPE then S_IFBLK
  else if typeflag = FIFOTYPE then S_IFIFO
  else 0

/-- Modelled from the spec: the kernel's `kstrto*` octal parsing as used by
`tar_read_entry` ("whitespace/NUL-terminated octal ASCII integers", spec §4.2;
the kernel functions are not under `src/`).  The field bytes up to the first
NUL form the string; parsing fails on an empty string, on any non-octal-digit
character, and on overflow of the destination type (`cap`). -/
def kstrtox (cap : Nat) (s : List Nat) : Option Nat :=
  let digits := s.takeWhile (fun c => c ≠ 0)
  if digits = [] then none
  else if digits.all (fun c => decide (48 ≤ c ∧ c ≤ 55)) then
    let v := digits.foldl (fun a c => a * 8 + (c - 48)) 0
    if v < cap then some v else none
  else none

/-- `kstrtouint(s, 8, &x)` with `x : unsigned int` (used for size/mode/uid/gid). -/
def kstrtouint (s : List Nat) : Option Nat := kstrtox uintMod s

/-- `kstrtoul(s, 8, &x)` with `x : unsigned long` (used for the timestamps). -/
def kstrtoul (s : List Nat) : Option Nat := kstrtox sizeTMod s

/-- The superblock as consumed by `src/device.c`: a block size
(`sb->s_blocksize`) and the block fetch `sb_bread(sb, block)`, which returns
the block's bytes (`b_data`, with `b_size` = its length) or `none` for a
`NULL` `buffer_head`.  `sb_bread` itself is kernel code, not under `src/`;
this is the backing-store interface of spec §6. -/
structure super_block where
  s_blocksize : Nat
  sb_bread : Nat → Option (List Nat)

/-- The loop body of `tarfs_read` from `src/device.c`.  One iteration fetches
the block containing the current position and copies
`inner_size = min(s_blocksize - inner_off, size)` bytes out of it.

Faithfulness notes:
* `fuel` is only a structural-termination device; `tarfs_read` instantiates it
  with `size`, which bounds the iteration count whenever `s_blocksize > 0`
  because every iteration consumes at least one byte.  With `s_blocksize = 0`
  the C loop never advances (modelled as `none`).
* When `sb_bread` returns `NULL` the C code logs `pr_err` and then
  dereferences the null pointer (a kernel oops, no return value); this
  non-returning crash is modelled as `none`.
* When the fetched block's `b_size` differs from `s_blocksize` the C code only
  logs `pr_err` and copies anyway; `memcpy` past the end of a short block reads
  unspecified bytes, modelled as zero-padding up to `inner_size`. -/
def tarfsReadAux (sb : super_block) : Nat → Nat → Nat → Option (List Nat)
  | 0, size, _ => if size = 0 then some [] else none
  | fuel + 1, size, offset =>
    if size = 0 then some []
    else
      let block := offset / sb.s_blocksize
      let inner_off := offset % sb.s_blocksize
      let inner_size := min (sb.s_blocksize - inner_off) size
      if inner_size = 0 then none
      else
        match sb.sb_bread block with
        | none => none
        | some data =>
          match tarfsReadAux sb fuel (size - inner_size) (offset + inner_size) with
          | none => none
          | some rest =>
            let copied := (data.drop inner_off).take inner_size
            some ((copied ++ List.replicate (inner_size - copied.length) 0) ++ rest)

/-- `tarfs_read` from `src/device.c`: reads `size` bytes starting at byte
`offset` of the backing store, reassembling them from block fetches.  Returns
the bytes read (the C function fills a caller buffer and returns the count;
the count is always the length of the returned list here). -/
def tarfs_read (size offset : Nat) (sb : super_block) : Option (List Nat) :=
  tarfsReadAux sb size size offset

/-- A finite block device of `disk.length` bytes: `sb_bread` succeeds exactly
when the whole requested block lies on the device, returning its `B` bytes.
This is the `mount_bdev` backing store `tar_open`/`tarfs_fill_sb` run against. -/
def disk_sb (disk : List Nat) (B : Nat) : super_block :=
  { s_blocksize := B
  , sb_bread := fun k =>
      if (k + 1) * B ≤ disk.length then some ((disk.drop (k * B)).take B) else none }

/-- A backing store on which every `sb_bread` succeeds, with arbitrary per-block
contents (and hence arbitrary `b_size`); used to state claims about
`tarfs_read` itself. -/
def total_sb (blocks : Nat → List Nat) (B : Nat) : super_block :=
  { s_blocksize := B, sb_bread := fun k => some (blocks k) }

/-- `struct tar_entry` from `src/tar.h` (minus the intrusive `next` pointer:
entry sequences are `List tar_entry`, in archive order).  `offset` and
`data_offset` are C `unsigned int` fields; `length` is `size_t`; `inode` is
`unsigned long`. -/
structure tar_entry where
  header : star_header
  dirname : List Nat
  basename : List Nat
  offset : Nat
  data_offset : Nat
  length : Nat
  inode : Nat
  mode : Nat
  uid : Nat
  gid : Nat
  atime : Nat
  mtime : Nat
  ctime : Nat

/-- `ALIGN_SECTOR` from `src/tar.c`: bytes needed to align `x` on a 512
boundary. -/
def ALIGN_SECTOR (x : Nat) : Nat := if x % 512 > 0 then 512 - x % 512 else 0

/-- `build_name` from `src/tar.c`: concatenate the NUL-terminated contents of
the header's `prefix` and `name` fields; a trailing `'/'` (directory marker)
is replaced by NUL, i.e. dropped.  (`kmalloc` is assumed to succeed; on an
empty concatenation the C code reads `name[-1]`, which is out of bounds — the
read is modelled as not matching `'/'`.) -/
def build_name (header : star_header) : List Nat :=
  let prefix_part := header.pfx.takeWhile (fun c => c ≠ 0)
  let name_part := header.name.takeWhile (fun c => c ≠ 0)
  let full := prefix_part ++ name_part
  -- The path name ends with a slash if the entry is a directory
  if full.getLast? = some 47 then full.dropLast else full

/-- The dirname/basename split of `tar_read_entry` (`strrchr(full_name, '/')`):
NUL the last slash and point `basename` past it; if there is no slash the
entry lives in the root and `dirname` is the empty string. -/
def split_path (full_name : List Nat) : List Nat × List Nat :=
  let rev := full_name.reverse
  let rev_base := rev.takeWhile (fun c => c ≠ 47)
  let rev_rest := rev.dropWhile (fun c => c ≠ 47)
  match rev_rest with
  | [] => ([], full_name)
  | _ :: rest => (rest.reverse, rev_base.reverse)

/-- `tar_read_entry` from `src/tar.c`: read the 512-byte header record at
`offset`, check the magic, decode the mandatory octal fields (`size`, `mode`,
`uid`, `gid`; any failure aborts with `none`, as the C returns `NULL`), decode
the timestamps best-effort, build and split the name.  `offset` and
`data_offset` are stored into `unsigned int` fields, hence the `% 2^32`;
`ALIGN_SECTOR 512 = 0` so `data_offset = offset + 512`.  All C failure exits
(`NULL`) are merged into `none`, exactly as callers cannot tell them apart. -/
def tar_read_entry (sb : super_block) (offset : Nat) : Option tar_entry :=
  match tarfs_read 512 offset sb with
  | none => none
  | some bytes =>
    let header := star_header_of_bytes bytes
    -- Check for the header magic value
    if header.magic ≠ OLDGNU_MAGIC then none
    else
      match kstrtouint header.size, kstrtouint header.mode,
            kstrtouint header.uid, kstrtouint header.gid with
      | some length, some mode, some uid, some gid =>
        let mtime := (kstrtoul header.mtime).getD 0
        let atime := (kstrtoul header.atime).getD mtime
        let ctime := (kstrtoul header.ctime).getD mtime
        let full_name := build_name header
        let dn := split_path full_name
        some { header := header
             , dirname := dn.1
             , basename := dn.2
             , offset := offset % uintMod
             , data_offset := (offset + 512 + ALIGN_SECTOR 512) % uintMod
             , length := length
             , inode := 0  -- kzalloc zero-fills; tar_open assigns the inode
             , mode := mode, uid := uid, gid := gid
             , atime := atime, mtime := mtime, ctime := ctime }
      | _, _, _, _ => none

/-- The offset at which `tar_open` reads the next header after `e`:
`length = e.data_offset + e.length; offset = length + ALIGN_SECTOR(length)`
(computed in 64-bit `off_t`, which cannot wrap for representable entries). -/
def next_offset (e : tar_entry) : Nat :=
  let length := e.data_offset + e.length
  length + ALIGN_SECTOR length

/-- The `while (parent)` loop of `tar_open` from `src/tar.c`: read an entry,
assign it the next inode number (`count`, starting at 2), advance past its
payload to the next sector boundary, repeat until `tar_read_entry` fails.
`fuel` is only a structural-termination device: every successful entry read
advances `offset` by at least 512 bytes and requires those bytes to lie on the
device, so `tar_open`'s instantiation `disk.length / 512 + 1` is never
exhausted. -/
def tar_open_aux (disk : List Nat) (B : Nat) : Nat → Nat → Nat → List tar_entry
  | 0, _, _ => []
  | fuel + 1, offset, count =>
    match tar_read_entry (disk_sb disk B) offset with
    | none => []
    | some e =>
      { e with inode := count } :: tar_open_aux disk B fuel (next_offset e) (count + 1)

/-- `tar_open` from `src/tar.c`: index the whole archive on the device `disk`
(block size `B`) into an entry list in archive order, assigning inode numbers
starting at 2.  Returns `[]` (the C `NULL`) when no leading entry parses. -/
def tar_open (disk : List Nat) (B : Nat) : List tar_entry :=
  tar_open_aux disk B (disk.length / 512 + 1) 0 2

/-- `tar_find` from `src/tar.c`: scan the entry list for the first entry whose
`basename` and `dirname` both match (C `strcmp` equality on NUL-free strings
is list equality). -/
def tar_find : List tar_entry → List Nat → List Nat → Option tar_entry
  | [], _, _ => none
  | e :: rest, dirname, basename =>
    if e.basename = basename ∧ e.dirname = dirname then some e
    else tar_find rest dirname basename

/-- `tarfs_find_by_inode` from `src/driver.c`: scan the entry list for the
first entry with the given inode number. -/
def tarfs_find_by_inode : List tar_entry → Nat → Option tar_entry
  | [], _ => none
  | e :: rest, inode =>
    if e.inode = inode then some e else tarfs_find_by_inode rest inode

/-- `ROOT_INO` from `src/driver.c`: the inode number of the synthetic root. -/
def ROOT_INO : Nat := 0

/-- `ENOMEM`, the errno value `tarfs_fill_sb` fails with. -/
def ENOMEM : Int := 12

/-- The indexing part of `tarfs_fill_sb` from `src/driver.c`: open the tar
index; a `NULL` result (the empty entry list) makes the mount fail with
`-ENOMEM` ("failed to read tar index").  The subsequent root-inode allocation
is assumed to succeed and is not modelled. -/
def tarfs_fill_sb (disk : List Nat) (B : Nat) : Except Int (List tar_entry) :=
  match tar_open disk B with
  | [] => Except.error (-ENOMEM)
  | entries => Except.ok entries

/-- `tar_read` from `src/tar.c`: clamp the requested length to
`min(len, entry->length - off)` — computed in `size_t` arithmetic, so the
subtraction wraps when `off > entry->length` — and delegate to `tarfs_read`
at `entry->data_offset + off` (an `unsigned int` sum; `off` itself is an
`unsigned int` parameter). -/
def tar_read (sb : super_block) (e : tar_entry) (off len : Nat) : Option (List Nat) :=
  let off := off % uintMod
  let to_read := min len (size_t_sub e.length off)
  tarfs_read to_read ((e.data_offset + off) % uintMod) sb

/-! ## Concrete archives and stores used by counterexamples and witnesses -/

/-- A fixed-width header field: content bytes padded with NULs. -/
def pad_field (n : Nat) (s : List Nat) : List Nat :=
  s.take n ++ List.replicate (n - s.length) 0

/-- A 512-byte classic tar header record with the given `name`, `mode`, `uid`,
`gid`, `size` field contents and type flag; `mtime` is `"0"`, the magic is
valid, all remaining fields are NUL. -/
def mk_header_bytes (name mode uid gid size : List Nat) (typeflag : Nat) : List Nat :=
  pad_field 100 name ++ pad_field 8 mode ++ pad_field 8 uid ++ pad_field 8 gid
  ++ pad_field 12 size
  ++ pad_field 12 [48]              -- mtime "0"
  ++ pad_field 8 []                 -- chksum (never checked by the code)
  ++ [typeflag]
  ++ pad_field 100 []               -- linkname
  ++ OLDGNU_MAGIC ++ pad_field 2 [32]  -- magic "ustar ", version
  ++ pad_field 32 [] ++ pad_field 32 []  -- uname, gname
  ++ pad_field 8 [] ++ pad_field 8 []    -- devmajor, devminor
  ++ pad_field 131 []                    -- prefix
  ++ pad_field 12 [] ++ pad_field 12 []  -- atime, ctime
  ++ pad_field 12 []                     -- padding to 512 bytes

/-- A header for a zero-length regular file `"a"` with mode `644`. -/
def header_bytes_a : List Nat := mk_header_bytes [97] [54, 52, 52] [48] [48] [48] REGTYPE

/-- A device holding exactly one entry `"a"` (reading past it fails at the
device end). -/
def disk_one : List Nat := header_bytes_a

/-- Two entries with the identical path `"a"`. -/
def disk_dup : List Nat := header_bytes_a ++ header_bytes_a

/-- One valid entry `"a"`, then a header with valid magic whose `size` field is
the non-octal text `"zz"`. -/
def disk_trunc : List Nat :=
  header_bytes_a ++ mk_header_bytes [98] [54, 52, 52] [48] [48] [122, 122] REGTYPE

/-- A single header whose name `"a/"` ends in a path separator but whose type
flag is `REGTYPE`. -/
def disk_slash : List Nat :=
  mk_header_bytes [97, 47] [54, 52, 52] [48] [48] [48] REGTYPE

/-- An all-zero 512-byte device: not a tar archive. -/
def disk_zero : List Nat := List.replicate 512 0

/-- A store whose every block fetch succeeds and returns 512 zero bytes. -/
def zero_store : super_block := total_sb (fun _ => List.replicate 512 0) 512

/-- A store with `s_blocksize = 512` whose every block fetch succeeds but
returns an empty buffer (`b_size = 0 ≠ s_blocksize`). -/
def short_block_store : super_block := total_sb (fun _ => []) 512

/-- An entry with declared payload length 5 whose payload starts at byte 512. -/
def entry_len5 : tar_entry :=
  { header := ⟨[], [], [], [], [], [], 0, [], [], [], [], []⟩
  , dirname := [], basename := [97], offset := 0, data_offset := 512
  , length := 5, inode := 2, mode := 420, uid := 0, gid := 0
  , atime := 0, mtime := 0, ctime := 0 }


/-- The byte at absolute position `n` of a store whose block `k` holds
`blocks k`: block `n / B`, inner offset `n % B`. -/
def store_byte (blocks : Nat → List Nat) (B n : Nat) : Nat :=
  (blocks (n / B)).getD (n % B) 0

/-- The chunked reading scheme of claim C7: perform the payload reads
`(off, c)` for consecutive chunks `cs` starting at payload offset `off` and
concatenate the results (any failing read fails the whole sequence).  This is
the claim's left-hand side, built on the source's `tar_read`. -/
def tar_read_chunks (sb : super_block) (e : tar_entry) : List Nat → Nat → Option (List Nat)
  | [], _ => some []
  | c :: cs, off =>
    match tar_read sb e off c, tar_read_chunks sb e cs (off + c) with
    | some x, some rest => some (x ++ rest)
    | _, _ => none

/-- The entry that `tar_open disk_one 512` yields: the decoded header
`header_bytes_a` with inode 2 (mode `0o644 = 420`, empty payload at 512). -/
def entry_a : tar_entry :=
  { header := star_header_of_bytes header_bytes_a
  , dirname := [], basename := [97], offset := 0, data_offset := 512
  , length := 0, inode := 2, mode := 420, uid := 0, gid := 0
  , atime := 0, mtime := 0, ctime := 0 }

/-- The entry decoded by `tar_read_entry` from `header_bytes_a` (inode still
0, before `tar_open` assigns one). -/
def entry_a0 : tar_entry := { entry_a with inode := 0 }

/-- The raw-entry chain of an archive: `parses_chain off es` says that reading
a header at `off` yields the first entry of `es`, reading at the offset
`tar_open` advances to yields the second, and so on.  (Raw entries: inode
still 0, exactly as `tar_read_entry` returns them.) -/
def parses_chain (disk : List Nat) (B : Nat) : Nat → List tar_entry → Prop
  | _, [] => True
  | off, e :: es =>
    tar_read_entry (disk_sb disk B) off = some e ∧ parses_chain disk B (next_offset e) es

/-- The offset just past a chain of entries: where `tar_open` reads next. -/
def chain_end : Nat → List tar_entry → Nat
  | off, [] => off
  | _, e :: es => chain_end (next_offset e) es

/-- Inode assignment of the `tar_open` loop: the `i`-th entry of the list gets
inode `count + i`. -/
def assign_inodes : List tar_entry → Nat → List tar_entry
  | [], _ => []
  | e :: es, count => { e with inode := count } :: assign_inodes es (count + 1)
/-! ## Claim theorems -/

set_option maxRecDepth 100000
set_option maxHeartbeats 1600000

/-- Claim C1 (code bug): the spec requires `tar_read` to read 0 bytes whenever
the payload offset is at or past the entry's declared length, but for
`off = 6 > length = 5` the `size_t` subtraction `entry->length - off`
underflows, the clamp `min(len, entry->length - off)` keeps `len`, and
`tar_read` reads and returns 1 byte instead of 0.  (At `off = length = 5` the
code does return 0 bytes, as the second conjunct shows.) -/
theorem c1_read_past_end_reads_bytes :
    (tar_read zero_store entry_len5 6 1).map List.length = some 1 ∧
    (tar_read zero_store entry_len5 5 4).map List.length = some 0 := by
  constructor <;> rfl

/-- Claim C6 (code bug): a fetched block whose size (here 0) differs from
`s_blocksize` (here 512) does not make `tarfs_read` fail: the code only logs
and keeps copying, returning the full requested count of 8 bytes. -/
theorem c6_wrong_block_size_not_propagated :
    short_block_store.s_blocksize = 512 ∧
    short_block_store.sb_bread 0 = some [] ∧
    tarfs_read 8 0 short_block_store = some (List.replicate 8 0) := by
  refine ⟨rfl, rfl, ?_⟩
  rfl

/-- Claim C3, counterexample: on an all-zero (non-tar) backing store,
`tar_open` does yield an index with zero entries, but the driver's
`tarfs_fill_sb` treats that empty index as a failure and aborts the mount with
`-ENOMEM`, so "an empty result is not an error" fails at the open operation's
driver boundary. -/
theorem c3_empty_index_is_mount_error :
    tar_open disk_zero 512 = [] ∧
    tarfs_fill_sb disk_zero 512 = Except.error (-ENOMEM) := by
  constructor <;> rfl

/-- Claim C5, counterexample: decoding a header whose name `"a/"` ends in the
path separator drops the separator (the stored basename is `"a"`), but the
entry's kind comes from the type flag alone: with `typeflag = REGTYPE` the
kind is `S_IFREG`, not `S_IFDIR` as the claim asserts. -/
theorem c5_trailing_slash_not_directory :
    (tar_read_entry (disk_sb disk_slash 512) 0).map
        (fun e => (e.basename, tar_type_to_posix e.header.typeflag)) =
      some ([97], S_IFREG) ∧
    S_IFREG ≠ S_IFDIR := by
  refine ⟨?_, by decide⟩
  rfl

/-- Claim C2, counterexample: an archive with two entries of identical
`(dirname, basename) = ("", "a")` at archive positions 0 and 1 (inodes 2
and 3); `tar_find` returns the entry with inode 2, the first occurrence, not
the last as the claim asserts. -/
theorem c2_duplicate_path_first_wins :
    (tar_open disk_dup 512).map tar_entry.inode = [2, 3] ∧
    (tar_open disk_dup 512).map tar_entry.basename = [[97], [97]] ∧
    (tar_open disk_dup 512).map tar_entry.dirname = [[], []] ∧
    (tar_find (tar_open disk_dup 512) [] [97]).map tar_entry.inode = some 2 := by
  refine ⟨?_, ?_, ?_, ?_⟩ <;> rfl


/-- The copied-and-padded chunk of one `tarfsReadAux` iteration, described
bytewise: byte `i` of the chunk is byte `a + i` of the fetched block, or 0
when the block is too short. -/
lemma take_drop_pad_eq_map_range (data : List Nat) (a c : Nat) :
    (data.drop a).take c ++ List.replicate (c - ((data.drop a).take c).length) 0
      = (List.range c).map (fun i => data.getD (a + i) 0) := by
  have hlen : ((data.drop a).take c).length = min c (data.length - a) := by
    simp
  refine List.ext_getElem ?_ ?_
  · simp only [List.length_append, List.length_replicate, List.length_map,
      List.length_range, hlen]
    omega
  · intro i h1 h2
    simp only [List.length_map, List.length_range] at h2
    by_cases hc : i < ((data.drop a).take c).length
    · rw [List.getElem_append_left hc]
      have hd : a + i < data.length := by
        rw [hlen] at hc
        omega
      simp only [List.getElem_take, List.getElem_drop, List.getElem_map,
        List.getElem_range, List.getD_eq_getElem?_getD, List.getElem?_eq_getElem hd]
      rfl
    · rw [List.getElem_append_right (Nat.le_of_not_lt hc)]
      have hd : data.length ≤ a + i := by
        rw [hlen] at hc
        omega
      simp only [List.getElem_replicate, List.getElem_map, List.getElem_range,
        List.getD_eq_getElem?_getD, List.getElem?_eq_none hd]
      rfl

/-- On a store whose fetches all succeed, `tarfsReadAux` with enough fuel
returns a buffer of exactly the requested size, whatever the fetched blocks'
sizes are. -/
lemma tarfsReadAux_total_length (blocks : Nat → List Nat) (B : Nat) (hB : 0 < B) :
    ∀ fuel size offset, size ≤ fuel →
      (tarfsReadAux (total_sb blocks B) fuel size offset).map List.length = some size := by
  intro fuel
  induction fuel with
  | zero =>
    intro size offset h
    have : size = 0 := Nat.le_zero.mp h
    subst this
    simp [tarfsReadAux]
  | succ n ih =>
    intro size offset h
    by_cases hs : size = 0
    · subst hs; simp [tarfsReadAux]
    · have hio : offset % B < B := Nat.mod_lt _ hB
      have hinner : min (B - offset % B) size ≠ 0 := by omega
      have hle : size - min (B - offset % B) size ≤ n := by omega
      have hrec := ih (size - min (B - offset % B) size) (offset + min (B - offset % B) size) hle
      cases hr : tarfsReadAux (total_sb blocks B) n
          (size - min (B - offset % B) size) (offset + min (B - offset % B) size) with
      | none => rw [hr] at hrec; simp at hrec
      | some rest =>
        rw [hr] at hrec
        simp only [Option.map_some', Option.some.injEq] at hrec
        simp only [tarfsReadAux, hs, if_false, total_sb, hinner, if_neg, hr]
        simp only [total_sb] at hr
        rw [hr]
        rw [take_drop_pad_eq_map_range]
        simp only [Option.map_some', Option.some.injEq, List.length_append,
          List.length_map, List.length_range]
        omega

/-- Claim C10: whenever every block fetch succeeds (whatever the fetched
blocks' sizes) and the block size is positive, `tarfs_read` returns exactly
the requested number of bytes — it never short-reads, and its return value
carries no information about block availability or fetch success. -/
theorem c10_tarfs_read_full_count (blocks : Nat → List Nat) (B size offset : Nat)
    (hB : 0 < B) :
    (tarfs_read size offset (total_sb blocks B)).map List.length = some size :=
  tarfsReadAux_total_length blocks B hB size size offset (Nat.le_refl size)

/-- Witness for C10 at a concrete store and request. -/
theorem c10_tarfs_read_full_count_witness :
    0 < 512 ∧
    (tarfs_read 8 0 (total_sb (fun _ => List.replicate 512 0) 512)).map List.length
      = some 8 :=
  ⟨by decide, c10_tarfs_read_full_count (fun _ => List.replicate 512 0) 512 8 0 (by decide)⟩

/-- On a store whose every block fetch succeeds with exactly `B` bytes,
`tarfsReadAux` with enough fuel returns precisely the store's bytes
`offset, offset+1, ..., offset+size-1`. -/
lemma tarfsReadAux_good (blocks : Nat → List Nat) (B : Nat) (hB : 0 < B) :
    ∀ fuel size offset, size ≤ fuel →
      tarfsReadAux (total_sb blocks B) fuel size offset
        = some ((List.range size).map fun i => store_byte blocks B (offset + i)) := by
  intro fuel
  induction fuel with
  | zero =>
    intro size offset h
    have : size = 0 := Nat.le_zero.mp h
    subst this
    simp [tarfsReadAux]
  | succ n ih =>
    intro size offset h
    by_cases hs : size = 0
    · subst hs; simp [tarfsReadAux]
    · have hio : offset % B < B := Nat.mod_lt _ hB
      have hinner : min (B - offset % B) size ≠ 0 := by omega
      have hle : size - min (B - offset % B) size ≤ n := by omega
      have hrec := ih (size - min (B - offset % B) size) (offset + min (B - offset % B) size) hle
      simp only [tarfsReadAux, hs, if_false, total_sb, hinner, if_neg]
      simp only [total_sb] at hrec
      rw [hrec]
      rw [take_drop_pad_eq_map_range]
      simp only [Option.some.injEq]
      have hsplit : size = min (B - offset % B) size + (size - min (B - offset % B) size) := by
        omega
      conv_rhs => rw [hsplit, List.range_add, List.map_append, List.map_map]
      congr 1
      · -- the bytes copied out of the current block
        refine List.map_congr_left fun i hi => ?_
        rw [List.mem_range] at hi
        have hiB : offset % B + i < B := by omega
        have hdm : B * (offset / B) + offset % B = offset := Nat.div_add_mod offset B
        unfold store_byte
        have hdiv : (offset + i) / B = offset / B := by
          conv_lhs => rw [show offset + i = offset % B + i + B * (offset / B) by omega]
          rw [Nat.add_mul_div_left _ _ hB, Nat.div_eq_of_lt hiB, Nat.zero_add]
        have hmod : (offset + i) % B = offset % B + i := by
          conv_lhs => rw [show offset + i = offset % B + i + B * (offset / B) by omega]
          rw [Nat.add_mul_mod_self_left, Nat.mod_eq_of_lt hiB]
        rw [hdiv, hmod]
      · -- the bytes read by the remaining iterations
        refine List.map_congr_left fun i _ => ?_
        simp only [Function.comp]
        congr 1
        omega

/-- `size_t` subtraction agrees with truncated subtraction when nothing
underflows. -/
lemma size_t_sub_of_le (a b : Nat) (ha : a < sizeTMod) (hba : b ≤ a) :
    size_t_sub a b = a - b := by
  have hb : b < sizeTMod := lt_of_le_of_lt hba ha
  unfold size_t_sub
  rw [Nat.mod_eq_of_lt ha, Nat.mod_eq_of_lt hb]
  rw [show a + (sizeTMod - b) = (a - b) + sizeTMod by omega]
  rw [Nat.add_mod_right, Nat.mod_eq_of_lt (by omega)]

/-- `2^32 < 2^64`. -/
lemma uintMod_lt_sizeTMod : uintMod < sizeTMod := by
  unfold uintMod sizeTMod
  norm_num

/-- An in-bounds `tar_read` (`off + len ≤ entry.length`, representable
offsets) returns exactly the store bytes of the payload range
`[data_offset + off, data_offset + off + len)`. -/
lemma tar_read_within (blocks : Nat → List Nat) (B : Nat) (e : tar_entry)
    (off len : Nat) (hB : 0 < B) (hbound : off + len ≤ e.length)
    (hrep : e.data_offset + e.length < uintMod) :
    tar_read (total_sb blocks B) e off len
      = some ((List.range len).map fun i => store_byte blocks B (e.data_offset + off + i)) := by
  have hlen32 : e.length < uintMod := by omega
  have hlen64 : e.length < sizeTMod := lt_trans hlen32 uintMod_lt_sizeTMod
  have hoff : off < uintMod := by omega
  simp only [tar_read]
  rw [Nat.mod_eq_of_lt hoff]
  rw [size_t_sub_of_le _ _ hlen64 (by omega)]
  rw [show min len (e.length - off) = len by omega]
  rw [Nat.mod_eq_of_lt (show e.data_offset + off < uintMod by omega)]
  exact tarfsReadAux_good blocks B hB len len (e.data_offset + off) (Nat.le_refl len)

/-- Chunked reads that stay within the payload produce exactly the payload
bytes of the covered range. -/
lemma tar_read_chunks_good (blocks : Nat → List Nat) (B : Nat) (e : tar_entry)
    (hB : 0 < B) (hrep : e.data_offset + e.length < uintMod) :
    ∀ cs off, off + cs.sum ≤ e.length →
      tar_read_chunks (total_sb blocks B) e cs off
        = some ((List.range cs.sum).map fun i => store_byte blocks B (e.data_offset + off + i)) := by
  intro cs
  induction cs with
  | nil => intro off _; simp [tar_read_chunks]
  | cons c cs ih =>
    intro off h
    simp only [List.sum_cons] at h ⊢
    simp only [tar_read_chunks]
    rw [tar_read_within blocks B e off c hB (by omega) hrep]
    rw [ih (off + c) (by omega)]
    simp only [Option.some.injEq]
    conv_rhs => rw [List.range_add, List.map_append, List.map_map]
    congr 1
    refine List.map_congr_left fun i _ => ?_
    simp only [Function.comp]
    congr 1
    omega

/-- Claim C7: for an entry whose payload fits the representable range, reading
the payload `[0, L)` in consecutive chunks of arbitrary sizes and
concatenating the results yields exactly the bytes of the single read
`(0, L)`, independently of the chunk sizes and of the store's block size. -/
theorem c7_chunk_reads_concat (blocks : Nat → List Nat) (B : Nat) (e : tar_entry)
    (cs : List Nat) (hB : 0 < B) (_hgeom : ∀ k, (blocks k).length = B)
    (hsum : cs.sum = e.length) (hrep : e.data_offset + e.length < uintMod) :
    tar_read_chunks (total_sb blocks B) e cs 0
      = tar_read (total_sb blocks B) e 0 e.length := by
  rw [tar_read_chunks_good blocks B e hB hrep cs 0 (by omega)]
  rw [tar_read_within blocks B e 0 e.length hB (by omega) hrep]
  rw [hsum]

/-- Witness for C7: the 5-byte payload of `entry_len5` on a 4-byte-block
store, tiled as chunks `[2, 2, 1]`. -/
theorem c7_chunk_reads_concat_witness :
    (0 < 4 ∧ (∀ k : Nat, ((fun _ : Nat => List.replicate 4 7) k).length = 4) ∧
      ([2, 2, 1] : List Nat).sum = entry_len5.length ∧
      entry_len5.data_offset + entry_len5.length < uintMod) ∧
    tar_read_chunks (total_sb (fun _ => List.replicate 4 7) 4) entry_len5 [2, 2, 1] 0
      = tar_read (total_sb (fun _ => List.replicate 4 7) 4) entry_len5 0 entry_len5.length :=
  ⟨⟨by decide, fun _ => rfl, by decide, by decide⟩,
    c7_chunk_reads_concat (fun _ => List.replicate 4 7) 4 entry_len5 [2, 2, 1]
      (by decide) (fun _ => rfl) (by decide) (by decide)⟩

/-- `List.range' s n` is a strictly increasing chain. -/
lemma chain'_lt_range' (n : Nat) : ∀ s, List.Chain' (· < ·) (List.range' s n) := by
  induction n with
  | zero => intro s; simp
  | succ m ih =>
    intro s
    rw [List.range'_succ]
    cases m with
    | zero => simp
    | succ k =>
      rw [List.range'_succ]
      refine List.chain'_cons.mpr ⟨by omega, ?_⟩
      rw [← List.range'_succ]
      exact ih (s + 1)

/-- The `tar_open` loop hands out the inode numbers `count, count+1, ...` in
archive order, whatever the archive contains. -/
lemma tar_open_aux_map_inode (disk : List Nat) (B : Nat) :
    ∀ fuel offset count,
      (tar_open_aux disk B fuel offset count).map tar_entry.inode
        = List.range' count (tar_open_aux disk B fuel offset count).length := by
  intro fuel
  induction fuel with
  | zero => intro offset count; simp [tar_open_aux]
  | succ n ih =>
    intro offset count
    cases h : tar_read_entry (disk_sb disk B) offset with
    | none => simp [tar_open_aux, h]
    | some e =>
      simp only [tar_open_aux, h, List.map_cons, List.length_cons]
      rw [List.range'_succ, ih]

/-- The inode numbers of one `tar_open` index, as a list in archive order, are
exactly `[2, 3, ...]`. -/
lemma tar_open_map_inode (disk : List Nat) (B : Nat) :
    (tar_open disk B).map tar_entry.inode = List.range' 2 (tar_open disk B).length := by
  unfold tar_open
  exact tar_open_aux_map_inode disk B (disk.length / 512 + 1) 0 2

/-- Claim C9: in every index built by `tar_open`, the assigned inode numbers
are pairwise distinct, strictly increasing in archive order, and strictly
greater than the reserved root inode `ROOT_INO = 0`. -/
theorem c9_inode_assignment (disk : List Nat) (B : Nat) :
    ((tar_open disk B).map tar_entry.inode).Nodup ∧
    List.Chain' (· < ·) ((tar_open disk B).map tar_entry.inode) ∧
    ∀ e ∈ tar_open disk B, ROOT_INO < e.inode := by
  refine ⟨?_, ?_, ?_⟩
  · rw [tar_open_map_inode]; exact List.nodup_range' _ _
  · rw [tar_open_map_inode]; exact chain'_lt_range' _ _
  · intro e he
    have hmem : e.inode ∈ (tar_open disk B).map tar_entry.inode :=
      List.mem_map_of_mem _ he
    rw [tar_open_map_inode, List.mem_range'_1] at hmem
    unfold ROOT_INO
    omega

/-- `tar_find` only returns entries of the list it scans. -/
lemma tar_find_mem : ∀ (l : List tar_entry) (d n : List Nat) (e : tar_entry),
    tar_find l d n = some e → e ∈ l := by
  intro l
  induction l with
  | nil => intro d n e h; simp [tar_find] at h
  | cons a rest ih =>
    intro d n e h
    simp only [tar_find] at h
    split_ifs at h with hc
    · exact (Option.some.injEq _ _ ▸ h) ▸ List.mem_cons_self a rest
    · exact List.mem_cons_of_mem a (ih d n e h)

/-- On a list with pairwise-distinct inode numbers, looking up a member's
inode returns that member. -/
lemma tarfs_find_by_inode_of_nodup :
    ∀ (l : List tar_entry) (e : tar_entry),
      (l.map tar_entry.inode).Nodup → e ∈ l → tarfs_find_by_inode l e.inode = some e := by
  intro l
  induction l with
  | nil => intro e _ h; simp at h
  | cons a rest ih =>
    intro e hnd hmem
    simp only [List.map_cons, List.nodup_cons] at hnd
    obtain ⟨hna, hnd⟩ := hnd
    rcases List.mem_cons.mp hmem with rfl | hmem
    · simp [tarfs_find_by_inode]
    · have hne : ¬a.inode = e.inode := fun hh => hna (hh ▸ List.mem_map_of_mem _ hmem)
      simp only [tarfs_find_by_inode, hne, if_false]
      exact ih e hnd hmem

/-- Claim C8: in any `tar_open` index, if a path lookup succeeds then looking
the returned entry up again by its inode number yields the same entry. -/
theorem c8_find_by_path_then_identity (disk : List Nat) (B : Nat)
    (d n : List Nat) (e : tar_entry)
    (h : tar_find (tar_open disk B) d n = some e) :
    tarfs_find_by_inode (tar_open disk B) e.inode = some e := by
  have hmem : e ∈ tar_open disk B := tar_find_mem _ _ _ _ h
  have hnodup : ((tar_open disk B).map tar_entry.inode).Nodup := by
    rw [tar_open_map_inode]; exact List.nodup_range' _ _
  exact tarfs_find_by_inode_of_nodup _ _ hnodup hmem

/-- Witness for C8: the single-entry archive `disk_one`, looked up as
`("", "a")`. -/
theorem c8_find_by_path_then_identity_witness :
    tar_find (tar_open disk_one 512) [] [97] = some entry_a ∧
    tarfs_find_by_inode (tar_open disk_one 512) entry_a.inode = some entry_a :=
  ⟨by rfl, c8_find_by_path_then_identity disk_one 512 [] [97] entry_a (by rfl)⟩

/-- Claim C2, amended: `tar_find` returns the entry of the *first* archive
position matching `(dirname, basename)` — duplicates at later positions are
shadowed by the earliest occurrence, not the other way around. -/
theorem c2_find_returns_first_occurrence (l : List tar_entry) (d n : List Nat)
    (i : Nat) (e : tar_entry) (hi : l[i]? = some e)
    (hmatch : e.basename = n ∧ e.dirname = d)
    (hbefore : ∀ j, j < i → ∀ e', l[j]? = some e' →
      ¬(e'.basename = n ∧ e'.dirname = d)) :
    tar_find l d n = some e := by
  induction l generalizing i with
  | nil => simp at hi
  | cons a rest ih =>
    cases i with
    | zero =>
      rw [List.getElem?_cons_zero, Option.some.injEq] at hi
      subst hi
      simp [tar_find, hmatch]
    | succ k =>
      have hnota : ¬(a.basename = n ∧ a.dirname = d) :=
        hbefore 0 (Nat.succ_pos k) a (List.getElem?_cons_zero)
      rw [List.getElem?_cons_succ] at hi
      simp only [tar_find, hnota, if_false]
      exact ih k hi fun j hj e' hj' =>
        hbefore (j + 1) (by omega) e' (by rwa [List.getElem?_cons_succ])

/-- Witness for the amended C2 on the duplicate-path archive `disk_dup`: the
match at position 0 (inode 2) is returned. -/
theorem c2_find_returns_first_occurrence_witness :
    ((tar_open disk_dup 512)[0]? = some entry_a ∧
      entry_a.basename = [97] ∧ entry_a.dirname = []) ∧
    tar_find (tar_open disk_dup 512) [] [97] = some entry_a :=
  ⟨⟨by rfl, by decide, by decide⟩,
    c2_find_returns_first_occurrence (tar_open disk_dup 512) [] [97] 0 entry_a
      (by rfl) (by decide) (fun j hj => absurd hj (Nat.not_lt_zero j))⟩

/-- Claim C3, amended: when the first header block of the store fails the
magic check (or cannot be read at all), `tar_open` returns the index with
zero entries — but the driver's `tarfs_fill_sb` treats that empty index as a
failure and aborts the mount with `-ENOMEM` instead of succeeding. -/
theorem c3_nontar_store_empty_index (disk : List Nat) (B : Nat)
    (h : ∀ bytes ∈ tarfs_read 512 0 (disk_sb disk B),
      (star_header_of_bytes bytes).magic ≠ OLDGNU_MAGIC) :
    tar_open disk B = [] ∧ tarfs_fill_sb disk B = Except.error (-ENOMEM) := by
  have hre : tar_read_entry (disk_sb disk B) 0 = none := by
    unfold tar_read_entry
    cases hr : tarfs_read 512 0 (disk_sb disk B) with
    | none => rfl
    | some bytes => simp [h bytes hr]
  have hopen : tar_open disk B = [] := by
    unfold tar_open
    simp [tar_open_aux, hre]
  refine ⟨hopen, ?_⟩
  unfold tarfs_fill_sb
  rw [hopen]

/-- Witness for the amended C3 at the all-zero one-block store. -/
theorem c3_nontar_store_empty_index_witness :
    (∀ bytes ∈ tarfs_read 512 0 (disk_sb disk_zero 512),
      (star_header_of_bytes bytes).magic ≠ OLDGNU_MAGIC) ∧
    tar_open disk_zero 512 = [] ∧
    tarfs_fill_sb disk_zero 512 = Except.error (-ENOMEM) :=
  ⟨by decide, c3_nontar_store_empty_index disk_zero 512 (by decide)⟩

/-- Claim C5, amended: a header whose NUL-truncated `prefix ++ name`
concatenation ends in the separator `'/'` decodes to a name with the trailing
separator dropped; but the entry's kind is decided solely by the header's
type flag — it is `Directory` exactly when `typeflag = DIRTYPE`, regardless
of the trailing separator. -/
theorem c5_trailing_slash_dropped_kind_from_typeflag (h : star_header)
    (hslash : (h.pfx.takeWhile (fun c => c ≠ 0)
        ++ h.name.takeWhile (fun c => c ≠ 0)).getLast? = some 47) :
    build_name h = (h.pfx.takeWhile (fun c => c ≠ 0)
        ++ h.name.takeWhile (fun c => c ≠ 0)).dropLast ∧
    (tar_type_to_posix h.typeflag = S_IFDIR ↔ h.typeflag = DIRTYPE) := by
  constructor
  · simp only [build_name, hslash, if_pos]
  · unfold tar_type_to_posix DIRTYPE REGTYPE AREGTYPE SYMTYPE CHRTYPE BLKTYPE
      FIFOTYPE S_IFREG S_IFDIR S_IFLNK S_IFCHR S_IFBLK S_IFIFO
    split_ifs <;> constructor <;> intro hh <;> first
      | omega
      | exact hh.elim

/-- Witness for the amended C5 at the `"a/"`-with-`REGTYPE` header. -/
theorem c5_trailing_slash_dropped_kind_from_typeflag_witness :
    (((star_header_of_bytes (mk_header_bytes [97, 47] [54, 52, 52] [48] [48] [48] REGTYPE)).pfx.takeWhile (fun c => c ≠ 0)
      ++ (star_header_of_bytes (mk_header_bytes [97, 47] [54, 52, 52] [48] [48] [48] REGTYPE)).name.takeWhile (fun c => c ≠ 0)).getLast? = some 47) ∧
    (build_name (star_header_of_bytes (mk_header_bytes [97, 47] [54, 52, 52] [48] [48] [48] REGTYPE))
      = ((star_header_of_bytes (mk_header_bytes [97, 47] [54, 52, 52] [48] [48] [48] REGTYPE)).pfx.takeWhile (fun c => c ≠ 0)
        ++ (star_header_of_bytes (mk_header_bytes [97, 47] [54, 52, 52] [48] [48] [48] REGTYPE)).name.takeWhile (fun c => c ≠ 0)).dropLast ∧
      (tar_type_to_posix (star_header_of_bytes (mk_header_bytes [97, 47] [54, 52, 52] [48] [48] [48] REGTYPE)).typeflag = S_IFDIR
        ↔ (star_header_of_bytes (mk_header_bytes [97, 47] [54, 52, 52] [48] [48] [48] REGTYPE)).typeflag = DIRTYPE)) :=
  ⟨by decide,
    c5_trailing_slash_dropped_kind_from_typeflag
      (star_header_of_bytes (mk_header_bytes [97, 47] [54, 52, 52] [48] [48] [48] REGTYPE))
      (by decide)⟩

/-- A successful `tarfsReadAux` read of a positive number of bytes stays
inside the store, provided every successful fetch of block `k` certifies
`(k+1) * B ≤ N`. -/
lemma tarfsReadAux_offset_bound (sb : super_block) (N : Nat)
    (hfetch : ∀ k data, sb.sb_bread k = some data → (k + 1) * sb.s_blocksize ≤ N) :
    ∀ fuel size offset l, tarfsReadAux sb fuel size offset = some l →
      0 < size → offset + size ≤ N := by
  intro fuel
  induction fuel with
  | zero =>
    intro size offset l h hs
    simp only [tarfsReadAux] at h
    rw [if_neg (by omega : ¬size = 0)] at h
    simp at h
  | succ n ih =>
    intro size offset l h hs
    simp only [tarfsReadAux] at h
    rw [if_neg (by omega : ¬size = 0)] at h
    by_cases hi0 : min (sb.s_blocksize - offset % sb.s_blocksize) size = 0
    · rw [if_pos hi0] at h; simp at h
    · rw [if_neg hi0] at h
      cases hbr : sb.sb_bread (offset / sb.s_blocksize) with
      | none => rw [hbr] at h; simp at h
      | some data =>
        rw [hbr] at h
        have hblk := hfetch _ _ hbr
        rw [show (offset / sb.s_blocksize + 1) * sb.s_blocksize
            = sb.s_blocksize * (offset / sb.s_blocksize) + sb.s_blocksize by ring] at hblk
        have hdm : sb.s_blocksize * (offset / sb.s_blocksize) + offset % sb.s_blocksize
            = offset := Nat.div_add_mod offset sb.s_blocksize
        cases hrec : tarfsReadAux sb n
            (size - min (sb.s_blocksize - offset % sb.s_blocksize) size)
            (offset + min (sb.s_blocksize - offset % sb.s_blocksize) size) with
        | none => rw [hrec] at h; simp at h
        | some rest =>
          by_cases hz : size - min (sb.s_blocksize - offset % sb.s_blocksize) size = 0
          · omega
          · have := ih _ _ _ hrec (by omega)
            omega

/-- A successful header read at `offset` of the finite device `disk` implies
the whole 512-byte header record lies on the device. -/
lemma tar_read_entry_offset_bound (disk : List Nat) (B : Nat) (offset : Nat)
    (e : tar_entry) (h : tar_read_entry (disk_sb disk B) offset = some e) :
    offset + 512 ≤ disk.length := by
  unfold tar_read_entry at h
  cases hr : tarfs_read 512 offset (disk_sb disk B) with
  | none => rw [hr] at h; simp at h
  | some bytes =>
    refine tarfsReadAux_offset_bound (disk_sb disk B) disk.length ?_ 512 512 offset
      bytes hr (by omega)
    intro k data hk
    show (k + 1) * B ≤ disk.length
    simp only [disk_sb] at hk
    by_cases hcond : (k + 1) * B ≤ disk.length
    · exact hcond
    · rw [if_neg hcond] at hk
      exact absurd hk (by simp)

/-- A decoded entry records its payload position: `data_offset` is the header
offset plus the 512-byte header record (in `unsigned int` arithmetic). -/
lemma tar_read_entry_data_offset (sb : super_block) (off : Nat) (e : tar_entry)
    (h : tar_read_entry sb off = some e) :
    e.data_offset = (off + 512 + ALIGN_SECTOR 512) % uintMod := by
  simp only [tar_read_entry] at h
  split at h
  · simp at h
  · split at h
    · simp at h
    · split at h
      · injection h with h
        subst h
        rfl
      · simp at h

/-- Each successfully parsed entry occupies at least its 512-byte header on
the device, so a nonempty parsed chain starting at `off` certifies
`off + 512 * length ≤ disk.length` (on a device below the `unsigned int`
range, where header offsets do not wrap). -/
lemma parses_chain_bound (disk : List Nat) (B : Nat) (hdisk : disk.length < uintMod) :
    ∀ es e off, parses_chain disk B off (e :: es) →
      off + 512 * (e :: es).length ≤ disk.length := by
  intro es
  induction es with
  | nil =>
    intro e off h
    obtain ⟨hre, -⟩ := h
    have hb := tar_read_entry_offset_bound disk B off e hre
    simp only [List.length_cons, List.length_nil]
    omega
  | cons e2 es ih =>
    intro e off h
    obtain ⟨hre, hchain⟩ := h
    have hb := tar_read_entry_offset_bound disk B off e hre
    have hdo := tar_read_entry_data_offset _ _ _ hre
    have hdo' : e.data_offset = off + 512 := by
      rw [hdo, show ALIGN_SECTOR 512 = 0 from rfl, Nat.add_zero]
      exact Nat.mod_eq_of_lt (by omega)
    have hnext : off + 512 ≤ next_offset e := by
      have heq : next_offset e
          = e.data_offset + e.length + ALIGN_SECTOR (e.data_offset + e.length) := rfl
      omega
    have htail := ih e2 (next_offset e) hchain
    simp only [List.length_cons] at htail ⊢
    omega

/-- Unrolling of the `tar_open` loop along a parsed chain that ends at a
failing header read: the loop returns exactly the chain's entries with
consecutive inode numbers, given enough fuel for one iteration per entry plus
the final failing read. -/
lemma tar_open_aux_chain (disk : List Nat) (B : Nat) :
    ∀ es off count fuel,
      parses_chain disk B off es →
      tar_read_entry (disk_sb disk B) (chain_end off es) = none →
      es.length + 1 ≤ fuel →
      tar_open_aux disk B fuel off count = assign_inodes es count := by
  intro es
  induction es with
  | nil =>
    intro off count fuel _ hend hfuel
    obtain ⟨f, rfl⟩ : ∃ f, fuel = f + 1 := ⟨fuel - 1, by omega⟩
    simp only [chain_end] at hend
    simp [tar_open_aux, hend, assign_inodes]
  | cons e es ih =>
    intro off count fuel hchain hend hfuel
    obtain ⟨hre, hchain'⟩ := hchain
    obtain ⟨f, rfl⟩ : ∃ f, fuel = f + 1 := ⟨fuel - 1, by omega⟩
    simp only [chain_end] at hend
    simp only [tar_open_aux, hre, assign_inodes]
    rw [ih (next_offset e) (count + 1) f hchain' hend (by simpa using hfuel)]

/-- Claim C4: an archive consisting of a nonempty chain of valid entries
followed by a header record whose magic is valid but whose `size` field is
not octal text is indexed by `tar_open` as exactly those valid entries (with
inodes 2, 3, ...), and the mount succeeds with them: indexing truncates at
the corrupt header instead of aborting. -/
theorem c4_truncation_tolerant_indexing (disk : List Nat) (B : Nat)
    (es : List tar_entry) (bytes2 : List Nat)
    (hdisk : disk.length < uintMod)
    (hne : es ≠ [])
    (hchain : parses_chain disk B 0 es)
    (h2 : tarfs_read 512 (chain_end 0 es) (disk_sb disk B) = some bytes2)
    (h3 : (star_header_of_bytes bytes2).magic = OLDGNU_MAGIC)
    (h4 : kstrtouint (star_header_of_bytes bytes2).size = none) :
    tar_open disk B = assign_inodes es 2 ∧
    tarfs_fill_sb disk B = Except.ok (assign_inodes es 2) := by
  have hend : tar_read_entry (disk_sb disk B) (chain_end 0 es) = none := by
    unfold tar_read_entry
    rw [h2]
    simp [h3, h4]
  obtain ⟨e, es', rfl⟩ : ∃ e es', es = e :: es' := by
    cases es with
    | nil => exact absurd rfl hne
    | cons a l => exact ⟨a, l, rfl⟩
  have hbound := parses_chain_bound disk B hdisk es' e 0 hchain
  have hfuel : (e :: es').length + 1 ≤ disk.length / 512 + 1 := by
    simp only [List.length_cons] at hbound ⊢
    omega
  have hopen : tar_open disk B = assign_inodes (e :: es') 2 :=
    tar_open_aux_chain disk B (e :: es') 0 2 (disk.length / 512 + 1) hchain hend hfuel
  refine ⟨hopen, ?_⟩
  unfold tarfs_fill_sb
  rw [hopen]
  simp only [assign_inodes]

/-- Witness for C4: the archive `disk_trunc` — the valid entry `"a"`, then a
header whose `size` field is the non-octal `"zz"`. -/
theorem c4_truncation_tolerant_indexing_witness :
    (disk_trunc.length < uintMod ∧
      ([entry_a0] : List tar_entry) ≠ [] ∧
      parses_chain disk_trunc 512 0 [entry_a0] ∧
      tarfs_read 512 (chain_end 0 [entry_a0]) (disk_sb disk_trunc 512)
        = some (mk_header_bytes [98] [54, 52, 52] [48] [48] [122, 122] REGTYPE) ∧
      (star_header_of_bytes (mk_header_bytes [98] [54, 52, 52] [48] [48] [122, 122] REGTYPE)).magic
        = OLDGNU_MAGIC ∧
      kstrtouint (star_header_of_bytes (mk_header_bytes [98] [54, 52, 52] [48] [48] [122, 122] REGTYPE)).size
        = none) ∧
    tar_open disk_trunc 512 = assign_inodes [entry_a0] 2 ∧
    tarfs_fill_sb disk_trunc 512 = Except.ok (assign_inodes [entry_a0] 2) :=
  ⟨⟨by decide, List.cons_ne_nil entry_a0 [], ⟨by rfl, trivial⟩, by rfl, by decide, by decide⟩,
    c4_truncation_tolerant_indexing disk_trunc 512 [entry_a0]
      (mk_header_bytes [98] [54, 52, 52] [48] [48] [122, 122] REGTYPE)
      (by decide) (List.cons_ne_nil entry_a0 []) ⟨by rfl, trivial⟩ (by rfl) (by decide) (by decide)⟩
